import Mathlib

/-
Verification of the pool-occupancy monitor (src/scraper.py, src/models.py,
src/app.py) against its specification.

Modelling conventions:
- HTML pages are a small DOM type `Html`; `getText` models
  `BeautifulSoup.get_text()`, `bolds` models `find_all(['b','strong'])`
  together with `find_parent().get_text()`.
- The two regular expressions of scraper.py are embedded as deterministic
  matchers over `List Char`.  Both patterns are backtracking-free:
  every quantifier in them (`\s+`, `[^\d]*`, `\s*`, `\d+`) is followed by a
  token its own character class cannot match, so the greedy parse is the
  only possible parse and plain left-to-right scanning is faithful to
  `re.search` / `re.findall`.
- Character classes are modelled at ASCII granularity (plus the letter
  O-acute occurring in the anchor phrase), matching the data the scraper
  actually handles.
- Times are seconds: `tod` is the local time of day (seconds since
  midnight, `datetime.now().time()`), `now` is a UTC instant
  (`datetime.utcnow()`).  The store is the `occupancy_data` table as a
  list in insertion (rowid / primary-key) order.
-/

/-! ### Character helpers -/

def isDigitC (c : Char) : Bool := '0' ≤ c && c ≤ '9'

/-- Whitespace as in the regex class `\s` (ASCII part). -/
def isWsC (c : Char) : Bool :=
  c == ' ' || c == '\t' || c == '\n' || c == '\r' || c == '\x0b' || c == '\x0c'

/-- Case folding used for `re.IGNORECASE`: ASCII letters plus the
O-acute of the anchor phrase. -/
def lowChar (c : Char) : Char := if c = 'Ó' then 'ó' else c.toLower

/-- Case raising used for `parent_text.upper()` in scraper.py. -/
def upChar (c : Char) : Char := if c = 'ó' then 'Ó' else c.toUpper

def digitValC (c : Char) : Nat := c.toNat - 48

/-- Value of a digit run, as computed by Python `int(...)` on the group. -/
def natOfDigits (ds : List Char) : Nat :=
  ds.foldl (fun a c => a * 10 + digitValC c) 0

/-- Does the list start with a character satisfying `p`? -/
def headSat (p : Char → Bool) : List Char → Bool
  | [] => false
  | c :: _ => p c

/-! ### Pieces of the regex matchers -/

/-- Greedy `\d+` continuation: accumulate the maximal digit run. -/
def digitsAux (acc : Nat) : List Char → Nat × List Char
  | [] => (acc, [])
  | c :: cs => if isDigitC c then digitsAux (acc * 10 + digitValC c) cs else (acc, c :: cs)

/-- `(\d+)`: the maximal nonempty digit run at the head, with its value. -/
def takeDigits : List Char → Option (Nat × List Char)
  | [] => none
  | c :: cs => if isDigitC c then some (digitsAux (digitValC c) cs) else none

/-- `\s*`. -/
def skipWs (s : List Char) : List Char := s.dropWhile isWsC

/-- `[^\d]*`. -/
def skipNonDigits (s : List Char) : List Char := s.dropWhile (fun c => !isDigitC c)

/-- `\s+`: at least one whitespace character, then the maximal run. -/
def skipWs1 : List Char → Option (List Char)
  | [] => none
  | c :: cs => if isWsC c then some (skipWs cs) else none

/-- Python `str.strip()`. -/
def stripWs (s : List Char) : List Char :=
  (((s.dropWhile isWsC).reverse).dropWhile isWsC).reverse

/-- Match a literal word case-insensitively (`re.IGNORECASE`). -/
def matchWordCI : List Char → List Char → Option (List Char)
  | [], s => some s
  | _ :: _, [] => none
  | w :: ws, c :: cs => if lowChar c = lowChar w then matchWordCI ws cs else none

/-- Match a sequence of literal words separated by `\s+`. -/
def matchWords : List (List Char) → List Char → Option (List Char)
  | [], s => some s
  | w :: ws, s =>
    match matchWordCI w s with
    | none => none
    | some s1 =>
      match ws with
      | [] => some s1
      | _ :: _ =>
        match skipWs1 s1 with
        | none => none
        | some s2 => matchWords ws s2

/-- The anchor phrase of scraper.py, word by word:
`AKTUALNA\s+LICZBA\s+OSÓB\s+NA\s+BASENIE`. -/
def anchorWords : List (List Char) :=
  [("AKTUALNA".data), ("LICZBA".data), ("OSÓB".data), ("NA".data), ("BASENIE".data)]

/-- Attempt of the pattern `(\d+)\s*/\s*(\d+)` at the current position,
returning the two group values and the rest of the input. -/
def pairAt (s : List Char) : Option ((Nat × Nat) × List Char) :=
  match takeDigits s with
  | none => none
  | some (v1, r1) =>
    match skipWs r1 with
    | c :: r3 =>
      if c = '/' then
        match takeDigits (skipWs r3) with
        | some (v2, r5) => some ((v1, v2), r5)
        | none => none
      else none
    | [] => none

/-- Attempt of the full anchored pattern
`AKTUALNA\s+LICZBA\s+OSÓB\s+NA\s+BASENIE[^\d]*(\d+)\s*/\s*(\d+)`
at the current position (scraper.py line 42). -/
def anchoredAt (s : List Char) : Option (Nat × Nat) :=
  match matchWords anchorWords s with
  | none => none
  | some s1 =>
    match pairAt (skipNonDigits s1) with
    | some (p, _) => some p
    | none => none

/-- `re.search` for the anchored pattern: leftmost match. -/
def anchoredSearch : List Char → Option (Nat × Nat)
  | [] => none
  | c :: rest =>
    match anchoredAt (c :: rest) with
    | some p => some p
    | none => anchoredSearch rest

/-- `re.search(r'(\d+)\s*/\s*(\d+)', text)`: leftmost match. -/
def pairSearch : List Char → Option (Nat × Nat)
  | [] => none
  | c :: rest =>
    match pairAt (c :: rest) with
    | some (p, _) => some p
    | none => pairSearch rest

/-- `re.findall(r'(\d+)\s*/\s*(\d+)', text)`: non-overlapping matches,
left to right.  The fuel argument is always at least the remaining
length, so it never runs out. -/
def findAllAux : Nat → List Char → List (Nat × Nat)
  | 0, _ => []
  | _ + 1, [] => []
  | fuel + 1, c :: cs =>
    match pairAt (c :: cs) with
    | some (p, rest) => p :: findAllAux fuel rest
    | none => findAllAux fuel cs

def findAllPairs (s : List Char) : List (Nat × Nat) := findAllAux s.length s

/-- Substring test at the head position. -/
def leadEq : List Char → List Char → Bool
  | [], _ => true
  | _ :: _, [] => false
  | p :: ps, c :: cs => p == c && leadEq ps cs

/-- Substring containment (Python `in` on strings). -/
def hasSub (pat : List Char) : List Char → Bool
  | [] => leadEq pat []
  | c :: rest => leadEq pat (c :: rest) || hasSub pat rest

/-- The keyword test of scraper.py line 61:
`'AKTUALNA' in parent_text.upper() or 'BASENIE' in parent_text.upper()`. -/
def containsKeyword (pt : List Char) : Bool :=
  hasSub ("AKTUALNA".data) (pt.map upChar) || hasSub ("BASENIE".data) (pt.map upChar)

-- sanity checks (matcher vs. the Python regexes)
example : pairAt ("12/100 x".data) = some ((12, 100), (" x".data)) := by decide
example : pairAt ("17 a/ 80".data) = none := by decide
example : findAllPairs ("1/2/3".data) = [(1, 2)] := by decide
example : findAllPairs ("4/7 oraz 12/100".data) = [(4, 7), (12, 100)] := by decide
example : anchoredSearch ("AKTUALNA  liczba OSÓB na BASENIE:\n 17 / 80".data) = some (17, 80) := by
  decide
example : anchoredSearch ("AKTUALNA LICZBA OSÓB NA BASENIE 17 a/ 80".data) = none := by decide
example : containsKeyword ("w basenie jest".data) = true := by decide
example : containsKeyword ("nic tu nie ma".data) = false := by decide

/-! ### The page model and the extractor (scraper.py) -/

/-- A parsed HTML document: text nodes, elements, and sibling sequences.
`seq`/`nil` encode the child list of an element or of the document, so
that every function below is plain structural recursion. -/
inductive Html where
  | txt : List Char → Html
  | tag : String → Html → Html
  | seq : Html → Html → Html
  | nil : Html
deriving DecidableEq

/-- `soup.get_text()`: all text content in document order. -/
def getText : Html → List Char
  | .txt s => s
  | .tag _ c => getText c
  | .seq a b => getText a ++ getText b
  | .nil => []

/-- `soup.find_all(['b', 'strong'])` in document order, each element
paired with `elem.find_parent().get_text()`.  `pt` is the text of the
immediate parent element (initially the whole document, since
`find_parent` of a top-level element is the document). -/
def bolds (pt : List Char) : Html → List (List Char × List Char)
  | .txt _ => []
  | .nil => []
  | .seq a b => bolds pt a ++ bolds pt b
  | .tag t c =>
    (if t = "b" ∨ t = "strong" then [(getText (.tag t c), pt)] else []) ++
      bolds (getText c) c

def collectBolds (page : Html) : List (List Char × List Char) :=
  bolds (getText page) page

/-- The bold-element loop of scraper.py lines 53-65: for each bold
element, search its stripped text for a digit pair; on a match, return it
when the parent text contains a keyword, otherwise keep scanning. -/
def scanBold : List (List Char × List Char) → Option (Nat × Nat)
  | [] => none
  | (t, pt) :: rest =>
    match pairSearch (stripWs t) with
    | some p => if containsKeyword pt then some p else scanBold rest
    | none => scanBold rest

/-- The plausibility filter of scraper.py lines 72-76: the first pair
whose capacity lies in 50..200. -/
def findPlausible (l : List (Nat × Nat)) : Option (Nat × Nat) :=
  l.find? (fun p => decide (50 ≤ p.2) && decide (p.2 ≤ 200))

/-- `fetch_pool_occupancy` of scraper.py, minus the network fetch: the
three extraction strategies over a parsed page, first success wins. -/
def fetch_pool_occupancy (page : Html) : Option (Nat × Nat) :=
  match anchoredSearch (getText page) with
  | some p => some p
  | none =>
    match scanBold (collectBolds page) with
    | some p => some p
    | none => findPlausible (findAllPairs (getText page))

/-! ### The data model (models.py) -/

/-- One row of the `occupancy_data` table. -/
structure OccupancyData where
  timestamp : Int
  current_count : Nat
  max_capacity : Nat
deriving DecidableEq, Repr

/-- The `percentage` property of models.py (exact rational arithmetic in
place of Python floats; the claims concern the formula and the zero
branch, not rounding). -/
def OccupancyData.percentage (r : OccupancyData) : ℚ :=
  if r.max_capacity > 0 then (r.current_count : ℚ) / (r.max_capacity : ℚ) * 100 else 0

/-! ### The scheduler tick (app.py, fetch_and_store_occupancy) -/

def POLLING_START_TIME : Nat := 6 * 3600
def POLLING_END_TIME : Nat := 22 * 3600

/-- One tick of the background job (app.py lines 51-85).
`tod` is the local time of day in seconds, `now` the UTC timestamp,
`fetchResult` the value returned by `fetch_pool_occupancy`, `store` the
table in insertion order.  Returns the new table and whether a fetch was
attempted.  The dedup query has no `order_by`, so `.first()` is the first
row in table (insertion) order; `List.find?` models exactly that. -/
def fetch_and_store_occupancy (tod : Nat) (now : Int)
    (fetchResult : Option (Nat × Nat)) (store : List OccupancyData) :
    List OccupancyData × Bool :=
  if tod < POLLING_START_TIME ∨ tod > POLLING_END_TIME then (store, false)
  else
    match fetchResult with
    | none => (store, true)
    | some (c, m) =>
      match store.find? (fun r => decide (now - 240 ≤ r.timestamp)) with
      | none => (store ++ [⟨now, c, m⟩], true)
      | some recent =>
        if recent.current_count ≠ c ∨ recent.max_capacity ≠ m then
          (store ++ [⟨now, c, m⟩], true)
        else (store, true)

/-- Modelled from the spec: claim C1 reads the dedup comparand as "the
most recent reading whose timestamp is within the window ... the latest
of them by timestamp".  This selects that reading. -/
def latestRecent (now : Int) (store : List OccupancyData) : Option OccupancyData :=
  (store.filter (fun r => decide (now - 240 ≤ r.timestamp))).foldl
    (fun acc r =>
      match acc with
      | none => some r
      | some a => if a.timestamp < r.timestamp then some r else some a) none

/-- Modelled from the spec: the tick as claim C1 describes it, with the
latest-by-timestamp in-window reading as dedup comparand. -/
def fetch_and_store_spec (tod : Nat) (now : Int)
    (fetchResult : Option (Nat × Nat)) (store : List OccupancyData) :
    List OccupancyData × Bool :=
  if tod < POLLING_START_TIME ∨ tod > POLLING_END_TIME then (store, false)
  else
    match fetchResult with
    | none => (store, true)
    | some (c, m) =>
      match latestRecent now store with
      | none => (store ++ [⟨now, c, m⟩], true)
      | some recent =>
        if recent.current_count ≠ c ∨ recent.max_capacity ≠ m then
          (store ++ [⟨now, c, m⟩], true)
        else (store, true)

/-! ### The query API (app.py, get_latest and get_data) -/

structure LatestResponse where
  status : Nat
  success : Bool
  error : Option String
  data : Option OccupancyData
deriving DecidableEq, Repr

structure DataResponse where
  status : Nat
  success : Bool
  error : Option String
  data : Option (List OccupancyData)
deriving DecidableEq, Repr

/-- `order_by(timestamp.desc()).first()`: a reading with maximal
timestamp (the earliest-inserted one among ties, matching the stable
rowid order SQLite uses for equal keys). -/
def latestReading : List OccupancyData → Option OccupancyData
  | [] => none
  | r :: rs =>
    match latestReading rs with
    | none => some r
    | some m => if m.timestamp > r.timestamp then some m else some r

/-- `GET /api/latest` (app.py lines 151-174). -/
def get_latest (store : List OccupancyData) : LatestResponse :=
  match latestReading store with
  | some r => ⟨200, true, none, some r⟩
  | none => ⟨404, false, some "No data available", none⟩

/-- `order_by(timestamp.asc())`: stable insertion sort, ties keep
insertion order. -/
def insertByTs (r : OccupancyData) : List OccupancyData → List OccupancyData
  | [] => [r]
  | x :: xs => if r.timestamp < x.timestamp then r :: x :: xs else x :: insertByTs r xs

def sortByTs : List OccupancyData → List OccupancyData
  | [] => []
  | x :: xs => insertByTs x (sortByTs xs)

/-- Digits of a Python integer literal after the first: digits, with
single underscores allowed between digits. -/
def intDigitsRest (acc : Nat) : List Char → Option Nat
  | [] => some acc
  | '_' :: c :: cs => if isDigitC c then intDigitsRest (acc * 10 + digitValC c) cs else none
  | c :: cs => if isDigitC c then intDigitsRest (acc * 10 + digitValC c) cs else none

def intDigits : List Char → Option Nat
  | [] => none
  | c :: cs => if isDigitC c then intDigitsRest (digitValC c) cs else none

/-- Python `int(s)` for a string argument: surrounding whitespace
stripped, optional sign, nonempty digit run; `none` models the
`ValueError`. -/
def pyInt (s : String) : Option Int :=
  match stripWs s.data with
  | '+' :: rest => (intDigits rest).map (fun n => (n : Int))
  | '-' :: rest => (intDigits rest).map (fun n => -(n : Int))
  | cs => (intDigits cs).map (fun n => (n : Int))

/-- The message of the `ValueError` raised by `int()` and serialized by
the generic handler of get_data. -/
def intErrorMessage : String := "invalid literal for int() with base 10"

/-- `GET /api/data` (app.py lines 127-148).  `hoursArg` is the raw
`hours` query parameter when present; `request.args.get('hours', 24)`
yields the integer 24 when it is absent. -/
def get_data (hoursArg : Option String) (now : Int) (store : List OccupancyData) :
    DataResponse :=
  match (match hoursArg with | none => some (24 : Int) | some s => pyInt s) with
  | none => ⟨500, false, some intErrorMessage, none⟩
  | some h =>
    ⟨200, true, none,
      some (sortByTs (store.filter (fun r => decide (now - h * 3600 ≤ r.timestamp))))⟩

-- sanity checks
example :
    fetch_pool_occupancy
      (Html.seq (Html.txt ("AKTUALNA LICZBA OSÓB NA BASENIE\n".data))
        (Html.tag "b" (Html.txt ("17 / 80".data)))) = some (17, 80) := by decide
example :
    fetch_pool_occupancy (Html.txt ("basen 4/7 oraz 12/100".data)) = some (12, 100) := by decide
example :
    fetch_pool_occupancy
      (Html.tag "div" (Html.seq (Html.txt ("BASENIE dzisiaj: ".data))
        (Html.tag "b" (Html.txt ("3/80".data))))) = some (3, 80) := by decide
example : fetch_pool_occupancy (Html.txt ("nic".data)) = none := by decide
example : pyInt "  12 " = some 12 := by decide
example : pyInt "abc" = none := by decide
example : pyInt "-3" = some (-3) := by decide
example : pyInt "" = none := by decide
/-- Input refuting claim C1: two readings inside the recency window, in
insertion (and timestamp) order, with different counts. -/
def c1Store : List OccupancyData := [⟨1000, 5, 80⟩, ⟨1100, 6, 80⟩]

/-- Store of claim C2's concrete scenarios: one reading `(10, 80)` at
`t0 = 1000`. -/
def c2Store : List OccupancyData := [⟨1000, 10, 80⟩]

/-- Witness page of claim C3: the anchor phrase, a gap with a newline,
and the pair split across a bold element. -/
def c3Page : Html :=
  Html.seq (Html.txt ("AKTUALNA LICZBA OSÓB NA BASENIE\nw dniu: ".data))
    (Html.tag "b" (Html.txt ("17 / 80".data)))

/-- Witness page of claim C5: an implausible pair followed by one with a
capacity in 50..200, no anchor text and no bold element. -/
def c5Page : Html := Html.txt ("basen 4/7 oraz 12/100 zaprasza".data)

/-- Witness page of claim C6: no digit pair anywhere. -/
def c6Page : Html := Html.tag "div" (Html.txt ("witamy na stronie basenu".data))

/-- Witness page of claim C7: a bold pair inside a container whose text
carries the related keyword, with no anchor phrase. -/
def c7Page : Html :=
  Html.tag "div" (Html.seq (Html.txt ("BASENIE dzisiaj: ".data))
    (Html.tag "b" (Html.txt ("3/80".data))))

example : pyInt "1_0" = some 10 := by decide
example : pyInt "_1" = none := by decide

/-! ### Helper lemmas: first match of a list scan -/

theorem find?_first {α : Type} (p : α → Bool) (u : List α) (a : α) (rest : List α)
    (hu : ∀ x ∈ u, p x = false) (ha : p a = true) :
    (u ++ a :: rest).find? p = some a := by
  induction u with
  | nil => exact List.find?_cons_of_pos _ ha
  | cons x xs ih =>
    have hx : ¬ (p x = true) := by simp [hu x (by simp)]
    rw [List.cons_append, List.find?_cons_of_neg _ hx]
    exact ih (fun y hy => hu y (by simp [hy]))

theorem latestReading_cons_total (a : OccupancyData) (as : List OccupancyData) :
    ∃ r, latestReading (a :: as) = some r := by
  rw [latestReading]
  cases latestReading as with
  | none => exact ⟨a, rfl⟩
  | some m =>
    by_cases hgt : m.timestamp > a.timestamp
    · exact ⟨m, by simp [hgt]⟩
    · exact ⟨a, by simp [hgt]⟩

theorem latestReading_mem_max :
    ∀ (s : List OccupancyData) (r : OccupancyData),
      latestReading s = some r → r ∈ s ∧ ∀ x ∈ s, x.timestamp ≤ r.timestamp := by
  intro s
  induction s with
  | nil => intro r h; simp [latestReading] at h
  | cons a as ih =>
    intro r h
    cases hm : latestReading as with
    | none =>
      have ha : latestReading (a :: as) = some a := by rw [latestReading, hm]
      rw [ha] at h
      injection h with h
      subst h
      have hnil : as = [] := by
        cases as with
        | nil => rfl
        | cons b bs =>
          obtain ⟨r2, hr2⟩ := latestReading_cons_total b bs
          rw [hr2] at hm
          exact Option.noConfusion hm
      subst hnil
      exact ⟨List.mem_cons_self _ _, by simp⟩
    | some mx =>
      obtain ⟨hmem, hbd⟩ := ih mx hm
      by_cases hgt : mx.timestamp > a.timestamp
      · have ha : latestReading (a :: as) = some mx := by
          rw [latestReading, hm]
          simp [hgt]
        rw [ha] at h
        injection h with h
        subst h
        refine ⟨List.mem_cons_of_mem _ hmem, fun x hx => ?_⟩
        rcases List.mem_cons.mp hx with hxa | hxs
        · exact hxa ▸ le_of_lt hgt
        · exact hbd x hxs
      · have ha : latestReading (a :: as) = some a := by
          rw [latestReading, hm]
          simp [hgt]
        rw [ha] at h
        injection h with h
        subst h
        refine ⟨List.mem_cons_self _ _, fun x hx => ?_⟩
        rcases List.mem_cons.mp hx with hxa | hxs
        · exact hxa ▸ le_refl _
        · exact (hbd x hxs).trans (not_lt.mp hgt)

/-! ### Claims about the scheduler tick -/

/-- Claim C4: a tick outside the 06:00-22:00 window (both bounds
inclusive) performs no fetch and leaves the store unchanged; a tick
inside the window attempts a fetch. -/
theorem c4_time_gate (tod : Nat) (now : Int) (fr : Option (Nat × Nat))
    (store : List OccupancyData) :
    ((tod < POLLING_START_TIME ∨ POLLING_END_TIME < tod) →
      fetch_and_store_occupancy tod now fr store = (store, false))
    ∧ (POLLING_START_TIME ≤ tod → tod ≤ POLLING_END_TIME →
      (fetch_and_store_occupancy tod now fr store).2 = true) := by
  constructor
  · intro h
    unfold fetch_and_store_occupancy
    rw [if_pos h]
  · intro h1 h2
    unfold fetch_and_store_occupancy
    rw [if_neg (by simp only [not_or, not_lt]; exact ⟨h1, h2⟩)]
    rcases fr with _ | ⟨c, m⟩
    · rfl
    · cases hf : store.find? (fun r => decide (now - 240 ≤ r.timestamp)) with
      | none => simp [hf]
      | some recent => simp only [hf]; split <;> rfl

/-- Claim C4 witness: 05:59 and 22:01 skip, 06:00 and 22:00 fetch. -/
theorem c4_witness :
    (fetch_and_store_occupancy 21540 1000 (some (3, 80)) [] = ([], false))
    ∧ ((fetch_and_store_occupancy 21600 1000 (some (3, 80)) []).2 = true)
    ∧ ((fetch_and_store_occupancy 79200 1000 (some (3, 80)) []).2 = true)
    ∧ (fetch_and_store_occupancy 79260 1000 (some (3, 80)) [] = ([], false)) :=
  ⟨(c4_time_gate 21540 1000 (some (3, 80)) []).1 (Or.inl (by decide)),
   (c4_time_gate 21600 1000 (some (3, 80)) []).2 (by decide) (by decide),
   (c4_time_gate 79200 1000 (some (3, 80)) []).2 (by decide) (by decide),
   (c4_time_gate 79260 1000 (some (3, 80)) []).1 (Or.inr (by decide))⟩

/-- Claim C1 counterexample: with two in-window readings stored, the code
compares against the first row of the unordered query, not the latest
reading by timestamp: at `now = 1200` with new pair `(6, 80)`, the code
appends (it compares against `(5, 80)` at 1000) while the spec-modelled
tick, comparing against the latest in-window reading `(6, 80)` at 1100,
discards. -/
theorem c1_counterexample :
    fetch_and_store_occupancy 43200 1200 (some (6, 80)) c1Store ≠
      fetch_and_store_spec 43200 1200 (some (6, 80)) c1Store := by decide

/-- Claim C1 (amended): on a successful tick, the dedup comparand is the
first reading in stored (insertion) order whose timestamp lies within the
4-minute window — not the latest such reading by timestamp. -/
theorem c1_recent_comparand (tod : Nat) (now : Int) (c m : Nat)
    (u rest : List OccupancyData) (r0 : OccupancyData)
    (h1 : POLLING_START_TIME ≤ tod) (h2 : tod ≤ POLLING_END_TIME)
    (hu : ∀ r ∈ u, r.timestamp < now - 240)
    (hr0 : now - 240 ≤ r0.timestamp) :
    fetch_and_store_occupancy tod now (some (c, m)) (u ++ r0 :: rest) =
      (if r0.current_count ≠ c ∨ r0.max_capacity ≠ m
       then (u ++ r0 :: rest) ++ [⟨now, c, m⟩] else u ++ r0 :: rest, true) := by
  unfold fetch_and_store_occupancy
  rw [if_neg (by simp only [not_or, not_lt]; exact ⟨h1, h2⟩)]
  rw [find?_first (fun r => decide (now - 240 ≤ r.timestamp)) u r0 rest
    (fun x hx => decide_eq_false (not_le.mpr (hu x hx))) (decide_eq_true hr0)]
  dsimp only
  by_cases hc : r0.current_count ≠ c ∨ r0.max_capacity ≠ m
  · rw [if_pos hc, if_pos hc]
  · rw [if_neg hc, if_neg hc]

/-- Claim C1 witness for the amended statement: the comparand is the
first in-window reading `(5, 80)`, so the tick appends. -/
theorem c1_witness :
    fetch_and_store_occupancy 43200 1200 (some (6, 80)) c1Store =
      (c1Store ++ [⟨1200, 6, 80⟩], true) :=
  (c1_recent_comparand 43200 1200 6 80 [] [⟨1100, 6, 80⟩] ⟨1000, 5, 80⟩
    (by decide) (by decide) (by intro r hr; simp at hr) (by decide)).trans (by decide)

/-- Claim C2: on a successful in-window tick, a new reading is appended
when no stored reading is within the 4-minute window, or when the
comparand returned by the recency query differs from the new pair in
either field; otherwise the store is unchanged. -/
theorem c2_dedup_decision (tod : Nat) (now : Int) (c m : Nat)
    (store : List OccupancyData)
    (h1 : POLLING_START_TIME ≤ tod) (h2 : tod ≤ POLLING_END_TIME) :
    ((∀ r ∈ store, r.timestamp < now - 240) →
      fetch_and_store_occupancy tod now (some (c, m)) store =
        (store ++ [⟨now, c, m⟩], true))
    ∧ (∀ recent, store.find? (fun r => decide (now - 240 ≤ r.timestamp)) = some recent →
       ((recent.current_count ≠ c ∨ recent.max_capacity ≠ m) →
         fetch_and_store_occupancy tod now (some (c, m)) store =
           (store ++ [⟨now, c, m⟩], true))
       ∧ (recent.current_count = c → recent.max_capacity = m →
         fetch_and_store_occupancy tod now (some (c, m)) store = (store, true))) := by
  constructor
  · intro hall
    have hnone : store.find? (fun r => decide (now - 240 ≤ r.timestamp)) = none :=
      List.find?_eq_none.mpr (fun x hx => by
        simpa using not_le.mpr (hall x hx))
    unfold fetch_and_store_occupancy
    rw [if_neg (by simp only [not_or, not_lt]; exact ⟨h1, h2⟩), hnone]
  · intro recent hfind
    constructor
    · intro hdiff
      unfold fetch_and_store_occupancy
      rw [if_neg (by simp only [not_or, not_lt]; exact ⟨h1, h2⟩), hfind]
      dsimp only
      rw [if_pos hdiff]
    · intro hcc hmm
      unfold fetch_and_store_occupancy
      rw [if_neg (by simp only [not_or, not_lt]; exact ⟨h1, h2⟩), hfind]
      dsimp only
      rw [if_neg (by simp [hcc, hmm])]

/-- Claim C2 witness: at `t0+2min` the identical pair is discarded, at
`t0+2min` a changed count is stored, at `t0+5min` the identical pair is
stored again (outside the recency window). -/
theorem c2_witness :
    (fetch_and_store_occupancy 43200 1120 (some (10, 80)) c2Store = (c2Store, true))
    ∧ (fetch_and_store_occupancy 43200 1120 (some (11, 80)) c2Store =
        (c2Store ++ [⟨1120, 11, 80⟩], true))
    ∧ (fetch_and_store_occupancy 43200 1300 (some (10, 80)) c2Store =
        (c2Store ++ [⟨1300, 10, 80⟩], true)) :=
  ⟨((c2_dedup_decision 43200 1120 10 80 c2Store (by decide) (by decide)).2
      ⟨1000, 10, 80⟩ (by decide)).2 rfl rfl,
   ((c2_dedup_decision 43200 1120 11 80 c2Store (by decide) (by decide)).2
      ⟨1000, 10, 80⟩ (by decide)).1 (Or.inl (by decide)),
   (c2_dedup_decision 43200 1300 10 80 c2Store (by decide) (by decide)).1 (by decide)⟩

/-! ### Claims about the data model and the API -/

/-- Claim C8: the derived percentage is `current / capacity * 100` for a
positive capacity and `0` for capacity zero; the zero case is a value,
not a division error. -/
theorem c8_percentage (r : OccupancyData) :
    (0 < r.max_capacity →
      r.percentage = (r.current_count : ℚ) / (r.max_capacity : ℚ) * 100)
    ∧ (r.max_capacity = 0 → r.percentage = 0) := by
  constructor
  · intro h
    unfold OccupancyData.percentage
    rw [if_pos h]
  · intro h
    unfold OccupancyData.percentage
    rw [if_neg (by simp [h])]

/-- Claim C8 witness: the reading `(0, 0)` has percentage 0. -/
theorem c8_witness :
    (⟨0, 0, 0⟩ : OccupancyData).max_capacity = 0 ∧
      (⟨0, 0, 0⟩ : OccupancyData).percentage = 0 :=
  ⟨rfl, (c8_percentage ⟨0, 0, 0⟩).2 rfl⟩

/-- Claim C9: `GET /api/latest` on an empty store is the not-found
failure response `{success: false, error: "No data available"}` with
status 404; on a nonempty store it returns success with a stored reading
of maximal timestamp. -/
theorem c9_latest (store : List OccupancyData) :
    get_latest [] = ⟨404, false, some "No data available", none⟩
    ∧ (store ≠ [] → ∃ r, latestReading store = some r ∧
        get_latest store = ⟨200, true, none, some r⟩ ∧ r ∈ store ∧
        ∀ x ∈ store, x.timestamp ≤ r.timestamp) := by
  refine ⟨rfl, fun hne => ?_⟩
  obtain ⟨r, hr⟩ : ∃ r, latestReading store = some r := by
    cases store with
    | nil => exact absurd rfl hne
    | cons a as => exact latestReading_cons_total a as
  obtain ⟨hmem, hbd⟩ := latestReading_mem_max store r hr
  exact ⟨r, hr, by simp [get_latest, hr], hmem, hbd⟩

/-- Claim C9 witness: on a two-reading store the endpoint returns the
greatest-timestamp reading; on the empty store the 404 failure. -/
theorem c9_witness :
    ([⟨100, 1, 2⟩, ⟨200, 3, 4⟩] : List OccupancyData) ≠ [] ∧
      (get_latest [] = ⟨404, false, some "No data available", none⟩
       ∧ (([⟨100, 1, 2⟩, ⟨200, 3, 4⟩] : List OccupancyData) ≠ [] →
          ∃ r, latestReading [⟨100, 1, 2⟩, ⟨200, 3, 4⟩] = some r ∧
            get_latest [⟨100, 1, 2⟩, ⟨200, 3, 4⟩] = ⟨200, true, none, some r⟩ ∧
            r ∈ ([⟨100, 1, 2⟩, ⟨200, 3, 4⟩] : List OccupancyData) ∧
            ∀ x ∈ ([⟨100, 1, 2⟩, ⟨200, 3, 4⟩] : List OccupancyData),
              x.timestamp ≤ r.timestamp)) :=
  ⟨by decide, c9_latest [⟨100, 1, 2⟩, ⟨200, 3, 4⟩]⟩

/-- Claim C10: `GET /api/data` with an unparseable `hours` parameter is a
500 failure (the `int()` conversion error reaches the generic handler);
the 24-hour default applies only when the parameter is absent, and a
parseable parameter is used as given. -/
theorem c10_hours_param (s : String) (now : Int) (store : List OccupancyData) :
    (pyInt s = none →
      get_data (some s) now store = ⟨500, false, some intErrorMessage, none⟩)
    ∧ get_data none now store =
        ⟨200, true, none,
          some (sortByTs (store.filter (fun r => decide (now - 24 * 3600 ≤ r.timestamp))))⟩
    ∧ ∀ h, pyInt s = some h →
        get_data (some s) now store =
          ⟨200, true, none,
            some (sortByTs (store.filter (fun r => decide (now - h * 3600 ≤ r.timestamp))))⟩ := by
  refine ⟨fun hn => ?_, rfl, fun h hh => ?_⟩
  · simp [get_data, hn]
  · simp [get_data, hh]

/-- Claim C10 witness: `hours=abc` yields the 500 failure, not the
24-hour default. -/
theorem c10_witness :
    pyInt "abc" = none ∧
      get_data (some "abc") 0 [] = ⟨500, false, some intErrorMessage, none⟩ :=
  ⟨by decide, (c10_hours_param "abc" 0 []).1 (by decide)⟩

/-! ### Helper lemmas on character scanning -/

theorem headSat_app_ne {p : Char → Bool} (a b : List Char) (ha : a ≠ []) :
    headSat p (a ++ b) = headSat p a := by
  cases a with
  | nil => exact absurd rfl ha
  | cons c cs => rfl

theorem dropWhile_all_app (p : Char → Bool) (u t : List Char)
    (hu : ∀ c ∈ u, p c = true) (ht : headSat p t = false) :
    List.dropWhile p (u ++ t) = t := by
  induction u with
  | nil =>
    cases t with
    | nil => rfl
    | cons c cs =>
      have hc : p c = false := ht
      simp [List.dropWhile_cons, hc]
  | cons x xs ih =>
    have hx : p x = true := hu x (by simp)
    simp only [List.cons_append, List.dropWhile_cons, hx, if_true]
    exact ih (fun c hc => hu c (by simp [hc]))

theorem dropWhile_decomp (p : Char → Bool) (s : List Char) :
    ∃ u, s = u ++ s.dropWhile p ∧ ∀ c ∈ u, p c = true := by
  induction s with
  | nil => exact ⟨[], rfl, by simp⟩
  | cons c cs ih =>
    by_cases hc : p c = true
    · obtain ⟨u, hu1, hu2⟩ := ih
      refine ⟨c :: u, ?_, ?_⟩
      · simp only [List.dropWhile_cons, hc, if_true, List.cons_append, List.cons.injEq,
          true_and]
        exact hu1
      · intro x hx
        rcases List.mem_cons.mp hx with h | h
        · exact h ▸ hc
        · exact hu2 x h
    · rw [Bool.not_eq_true] at hc
      exact ⟨[], by simp [List.dropWhile_cons, hc], by simp⟩

theorem headSat_dropWhile (p : Char → Bool) (s : List Char) :
    headSat p (s.dropWhile p) = false := by
  induction s with
  | nil => rfl
  | cons c cs ih =>
    by_cases hc : p c = true
    · simpa [List.dropWhile_cons, hc] using ih
    · rw [Bool.not_eq_true] at hc
      simp [List.dropWhile_cons, hc, headSat]

theorem digitsAux_app : ∀ (D : List Char) (acc : Nat) (r : List Char),
    (∀ c ∈ D, isDigitC c = true) → headSat isDigitC r = false →
    digitsAux acc (D ++ r) = (D.foldl (fun a c => a * 10 + digitValC c) acc, r) := by
  intro D
  induction D with
  | nil =>
    intro acc r _ hr
    cases r with
    | nil => rfl
    | cons c cs =>
      have hc : isDigitC c = false := hr
      simp [digitsAux, hc]
  | cons d Dtl ih =>
    intro acc r hD hr
    have hd : isDigitC d = true := hD d (by simp)
    simp only [List.cons_append, digitsAux, hd, if_true, List.foldl_cons]
    exact ih _ r (fun c hc => hD c (by simp [hc])) hr

theorem takeDigits_app (D r : List Char) (hne : D ≠ [])
    (hD : ∀ c ∈ D, isDigitC c = true) (hr : headSat isDigitC r = false) :
    takeDigits (D ++ r) = some (natOfDigits D, r) := by
  cases D with
  | nil => exact absurd rfl hne
  | cons d Dtl =>
    have hd : isDigitC d = true := hD d (by simp)
    simp only [List.cons_append, takeDigits, hd, if_true]
    rw [digitsAux_app Dtl (digitValC d) r (fun c hc => hD c (by simp [hc])) hr]
    simp [natOfDigits, List.foldl_cons]

theorem takeDigits_head_some (s : List Char) (h : headSat isDigitC s = true) :
    ∃ n r, takeDigits s = some (n, r) := by
  cases s with
  | nil => exact absurd h (by simp [headSat])
  | cons c cs =>
    have hc : isDigitC c = true := h
    exact ⟨(digitsAux (digitValC c) cs).1, (digitsAux (digitValC c) cs).2,
      by simp [takeDigits, hc]⟩

theorem digitsAux_inv : ∀ (s : List Char) (acc n : Nat) (r : List Char),
    digitsAux acc s = (n, r) →
    ∃ D, s = D ++ r ∧ (∀ c ∈ D, isDigitC c = true) ∧ headSat isDigitC r = false ∧
      n = D.foldl (fun a c => a * 10 + digitValC c) acc := by
  intro s
  induction s with
  | nil =>
    intro acc n r h
    have h2 : (acc, ([] : List Char)) = (n, r) := h
    cases h2
    exact ⟨[], rfl, by simp, rfl, rfl⟩
  | cons c cs ih =>
    intro acc n r h
    by_cases hc : isDigitC c = true
    · rw [digitsAux, if_pos hc] at h
      obtain ⟨D, hD1, hD2, hD3, hD4⟩ := ih _ _ _ h
      refine ⟨c :: D, by simp [hD1], ?_, hD3, by simp [List.foldl_cons, hD4]⟩
      intro x hx
      rcases List.mem_cons.mp hx with hxc | hxd
      · exact hxc ▸ hc
      · exact hD2 x hxd
    · rw [Bool.not_eq_true] at hc
      rw [digitsAux, if_neg (by simp [hc])] at h
      have h2 : (acc, c :: cs) = (n, r) := h
      cases h2
      exact ⟨[], rfl, by simp, hc, rfl⟩

theorem takeDigits_inv (s : List Char) (n : Nat) (r : List Char)
    (h : takeDigits s = some (n, r)) :
    ∃ D, s = D ++ r ∧ D ≠ [] ∧ (∀ c ∈ D, isDigitC c = true) ∧
      headSat isDigitC r = false ∧ n = natOfDigits D := by
  cases s with
  | nil => exact Option.noConfusion h
  | cons c cs =>
    by_cases hc : isDigitC c = true
    · rw [takeDigits, if_pos hc] at h
      injection h with h
      obtain ⟨D, h1, h2, h3, h4⟩ := digitsAux_inv cs (digitValC c) n r h
      refine ⟨c :: D, by simp [h1], by simp, ?_, h3, ?_⟩
      · intro x hx
        rcases List.mem_cons.mp hx with hxc | hxd
        · exact hxc ▸ hc
        · exact h2 x hxd
      · rw [h4]
        simp [natOfDigits, List.foldl_cons]
    · rw [Bool.not_eq_true] at hc
      rw [takeDigits, if_neg (by simp [hc])] at h
      exact Option.noConfusion h

theorem skipWs_id (s : List Char) (h : headSat isWsC s = false) : skipWs s = s := by
  cases s with
  | nil => rfl
  | cons c cs =>
    have hc : isWsC c = false := h
    simp [skipWs, List.dropWhile_cons, hc]

theorem skipWs1_sp (x : List Char) (h : headSat isWsC x = false) :
    skipWs1 (' ' :: x) = some x := by
  have hsp : isWsC ' ' = true := rfl
  simp [skipWs1, hsp, skipWs_id x h]

theorem lowChar_ws_fixed (c : Char) (h : isWsC c = true) : lowChar c = c := by
  simp only [isWsC, Bool.or_eq_true, beq_iff_eq] at h
  rcases h with ((((h | h) | h) | h) | h) | h <;> subst h <;> decide

theorem isWs_not_digit (c : Char) (h : isWsC c = true) : isDigitC c = false := by
  simp only [isWsC, Bool.or_eq_true, beq_iff_eq] at h
  rcases h with ((((h | h) | h) | h) | h) | h <;> subst h <;> decide

theorem matchWordCI_of_ci : ∀ (W aw r : List Char),
    List.map lowChar aw = List.map lowChar W → matchWordCI W (aw ++ r) = some r := by
  intro W
  induction W with
  | nil =>
    intro aw r h
    have haw : aw = [] := by simpa using h
    subst haw
    rfl
  | cons w Wtl ih =>
    intro aw r h
    cases aw with
    | nil => simp at h
    | cons a awtl =>
      simp only [List.map_cons, List.cons.injEq] at h
      obtain ⟨h1, h2⟩ := h
      rw [List.cons_append, matchWordCI, if_pos h1]
      exact ih awtl r h2

theorem matchWordCI_decomp : ∀ (W s r : List Char),
    matchWordCI W s = some r → ∃ u, s = u ++ r := by
  intro W
  induction W with
  | nil =>
    intro s r h
    rw [matchWordCI] at h
    injection h with h
    exact ⟨[], by simp [h]⟩
  | cons w Wtl ih =>
    intro s r h
    cases s with
    | nil => rw [matchWordCI] at h; exact Option.noConfusion h
    | cons c cs =>
      rw [matchWordCI] at h
      by_cases hc : lowChar c = lowChar w
      · rw [if_pos hc] at h
        obtain ⟨u, hu⟩ := ih cs r h
        exact ⟨c :: u, by simp [hu]⟩
      · rw [if_neg hc] at h
        exact Option.noConfusion h

theorem head_not_ws_of_ci (a W r : List Char)
    (hci : List.map lowChar a = List.map lowChar W)
    (hW : headSat isWsC (List.map lowChar W) = false) (hne : W ≠ []) :
    headSat isWsC (a ++ r) = false := by
  cases W with
  | nil => exact absurd rfl hne
  | cons w Wtl =>
    cases a with
    | nil => simp at hci
    | cons x atl =>
      simp only [List.map_cons, List.cons.injEq] at hci
      obtain ⟨h1, _⟩ := hci
      show isWsC x = false
      cases hx : isWsC x with
      | false => rfl
      | true =>
        have hfix : lowChar x = x := lowChar_ws_fixed x hx
        have hxw : x = lowChar w := by rw [← h1, hfix]
        have hw : isWsC (lowChar w) = false := hW
        rw [hxw] at hx
        exact absurd hx (by simp [hw])

theorem headSat_digit_false_of_ws (w1 X : List Char)
    (hw : ∀ c ∈ w1, isWsC c = true) :
    headSat isDigitC (w1 ++ '/' :: X) = false := by
  cases w1 with
  | nil => exact show isDigitC '/' = false by decide
  | cons c cs => exact isWs_not_digit c (hw c (by simp))

theorem headSat_ws_false_of_digit (D X : List Char) (hne : D ≠ [])
    (hD : ∀ c ∈ D, isDigitC c = true) :
    headSat isWsC (D ++ X) = false := by
  cases D with
  | nil => exact absurd rfl hne
  | cons c cs =>
    have hd := hD c (by simp)
    show isWsC c = false
    cases hx : isWsC c with
    | false => rfl
    | true => exact absurd hd (by simp [isWs_not_digit c hx])

theorem skipWs1_decomp (s r : List Char) (h : skipWs1 s = some r) : ∃ u, s = u ++ r := by
  cases s with
  | nil => exact Option.noConfusion h
  | cons c cs =>
    rw [skipWs1] at h
    by_cases hc : isWsC c = true
    · rw [if_pos hc] at h
      injection h with h
      obtain ⟨u, hu1, _⟩ := dropWhile_decomp isWsC cs
      subst h
      exact ⟨c :: u, by rw [List.cons_append]; exact congrArg (List.cons c) hu1⟩
    · rw [if_neg hc] at h
      exact Option.noConfusion h

theorem matchWords_anchor (a1 a2 a3 a4 a5 R : List Char)
    (h1 : List.map lowChar a1 = List.map lowChar ("AKTUALNA".data))
    (h2 : List.map lowChar a2 = List.map lowChar ("LICZBA".data))
    (h3 : List.map lowChar a3 = List.map lowChar ("OSÓB".data))
    (h4 : List.map lowChar a4 = List.map lowChar ("NA".data))
    (h5 : List.map lowChar a5 = List.map lowChar ("BASENIE".data)) :
    matchWords anchorWords
      (a1 ++ ' ' :: (a2 ++ ' ' :: (a3 ++ ' ' :: (a4 ++ ' ' :: (a5 ++ R))))) = some R := by
  have hh2 : headSat isWsC (a2 ++ ' ' :: (a3 ++ ' ' :: (a4 ++ ' ' :: (a5 ++ R)))) = false :=
    head_not_ws_of_ci a2 ("LICZBA".data) _ h2 (by decide) (by decide)
  have hh3 : headSat isWsC (a3 ++ ' ' :: (a4 ++ ' ' :: (a5 ++ R))) = false :=
    head_not_ws_of_ci a3 ("OSÓB".data) _ h3 (by decide) (by decide)
  have hh4 : headSat isWsC (a4 ++ ' ' :: (a5 ++ R)) = false :=
    head_not_ws_of_ci a4 ("NA".data) _ h4 (by decide) (by decide)
  have hh5 : headSat isWsC (a5 ++ R) = false :=
    head_not_ws_of_ci a5 ("BASENIE".data) _ h5 (by decide) (by decide)
  show matchWords
    (("AKTUALNA".data) :: ("LICZBA".data) :: ("OSÓB".data) :: ("NA".data) ::
      ("BASENIE".data) :: []) _ = some R
  rw [matchWords, matchWordCI_of_ci ("AKTUALNA".data) a1 _ h1]
  dsimp only
  rw [skipWs1_sp _ hh2]
  dsimp only
  rw [matchWords, matchWordCI_of_ci ("LICZBA".data) a2 _ h2]
  dsimp only
  rw [skipWs1_sp _ hh3]
  dsimp only
  rw [matchWords, matchWordCI_of_ci ("OSÓB".data) a3 _ h3]
  dsimp only
  rw [skipWs1_sp _ hh4]
  dsimp only
  rw [matchWords, matchWordCI_of_ci ("NA".data) a4 _ h4]
  dsimp only
  rw [skipWs1_sp _ hh5]
  dsimp only
  rw [matchWords, matchWordCI_of_ci ("BASENIE".data) a5 R h5]

theorem matchWords_decomp : ∀ (ws : List (List Char)) (s r : List Char),
    matchWords ws s = some r → ∃ u, s = u ++ r := by
  intro ws
  induction ws with
  | nil =>
    intro s r h
    rw [matchWords] at h
    injection h with h
    exact ⟨[], by simp [h]⟩
  | cons w wtl ih =>
    intro s r h
    rw [matchWords] at h
    cases hm : matchWordCI w s with
    | none => rw [hm] at h; exact Option.noConfusion h
    | some s1 =>
      rw [hm] at h
      obtain ⟨u1, hu1⟩ := matchWordCI_decomp w s s1 hm
      cases wtl with
      | nil =>
        dsimp only at h
        injection h with h
        exact ⟨u1, by rw [hu1, h]⟩
      | cons w2 wtl2 =>
        dsimp only at h
        cases hw : skipWs1 s1 with
        | none => rw [hw] at h; exact Option.noConfusion h
        | some s2 =>
          rw [hw] at h
          dsimp only at h
          obtain ⟨u2, hu2⟩ := skipWs1_decomp s1 s2 hw
          obtain ⟨u3, hu3⟩ := ih s2 r h
          exact ⟨u1 ++ (u2 ++ u3), by rw [hu1, hu2, hu3]; simp [List.append_assoc]⟩

theorem pairAt_app_some (w v : List Char) (p : Nat × Nat) (rest : List Char)
    (h : pairAt w = some (p, rest)) :
    ∃ q rest2, pairAt (w ++ v) = some (q, rest2) := by
  unfold pairAt at h
  cases ht1 : takeDigits w with
  | none => rw [ht1] at h; exact Option.noConfusion h
  | some nr1 =>
    obtain ⟨v1, r1⟩ := nr1
    rw [ht1] at h
    dsimp only at h
    cases hsw : skipWs r1 with
    | nil => rw [hsw] at h; exact Option.noConfusion h
    | cons c r3 =>
      rw [hsw] at h
      dsimp only at h
      by_cases hc : c = '/'
      · rw [if_pos hc] at h
        subst hc
        cases ht2 : takeDigits (skipWs r3) with
        | none => rw [ht2] at h; exact Option.noConfusion h
        | some nr2 =>
          obtain ⟨v2, r5⟩ := nr2
          obtain ⟨D1, hwD, hD1ne, hD1dig, hr1head, _⟩ := takeDigits_inv w v1 r1 ht1
          obtain ⟨u1, hr1u, hu1ws⟩ := dropWhile_decomp isWsC r1
          unfold skipWs at hsw
          rw [hsw] at hr1u
          obtain ⟨u2, hr3u, hu2ws⟩ := dropWhile_decomp isWsC r3
          obtain ⟨D2, hr3D, hD2ne, hD2dig, hr5head, _⟩ :=
            takeDigits_inv (skipWs r3) v2 r5 ht2
          unfold skipWs at hr3D
          rw [hr3D] at hr3u
          have hr1ne : r1 ≠ [] := by rw [hr1u]; simp
          have e1 : takeDigits (w ++ v) = some (natOfDigits D1, r1 ++ v) := by
            rw [hwD, List.append_assoc]
            exact takeDigits_app D1 (r1 ++ v) hD1ne hD1dig
              (by rw [headSat_app_ne r1 v hr1ne]; exact hr1head)
          have e2 : skipWs (r1 ++ v) = '/' :: (r3 ++ v) := by
            unfold skipWs
            rw [hr1u]
            simp only [List.append_assoc, List.cons_append]
            exact dropWhile_all_app isWsC u1 _ hu1ws (show isWsC '/' = false by decide)
          have e3 : skipWs (r3 ++ v) = D2 ++ (r5 ++ v) := by
            unfold skipWs
            rw [hr3u]
            simp only [List.append_assoc]
            exact dropWhile_all_app isWsC u2 _ hu2ws
              (headSat_ws_false_of_digit D2 (r5 ++ v) hD2ne hD2dig)
          obtain ⟨n2, r2, e4⟩ := takeDigits_head_some (D2 ++ (r5 ++ v))
            (by
              cases D2 with
              | nil => exact absurd rfl hD2ne
              | cons d dd => exact hD2dig d (by simp))
          refine ⟨(natOfDigits D1, n2), r2, ?_⟩
          unfold pairAt
          rw [e1]
          dsimp only
          rw [e2]
          dsimp only
          rw [if_pos rfl, e3, e4]
      · rw [if_neg hc] at h
        exact Option.noConfusion h

theorem anchoredSearch_pos : ∀ (n : Nat) (s : List Char) (v : Nat × Nat),
    (∀ i, i < n → anchoredAt (s.drop i) = none) →
    anchoredAt (s.drop n) = some v → anchoredSearch s = some v := by
  intro n
  induction n with
  | zero =>
    intro s v _ h0
    rw [List.drop_zero] at h0
    cases s with
    | nil => exact absurd h0 (by simp [show anchoredAt [] = none from rfl])
    | cons c cs => rw [anchoredSearch, h0]
  | succ n ih =>
    intro s v hlt hn
    cases s with
    | nil =>
      rw [List.drop_nil] at hn
      exact absurd hn (by simp [show anchoredAt [] = none from rfl])
    | cons c cs =>
      have h0 : anchoredAt (c :: cs) = none := by
        have := hlt 0 (Nat.succ_pos n)
        rwa [List.drop_zero] at this
      rw [anchoredSearch, h0]
      dsimp only
      refine ih cs v (fun i hi => ?_) ?_
      · have := hlt (i + 1) (Nat.succ_lt_succ hi)
        rwa [List.drop_succ_cons] at this
      · rwa [List.drop_succ_cons] at hn

theorem anchoredSearch_none (s : List Char)
    (h : ∀ i, anchoredAt (s.drop i) = none) : anchoredSearch s = none := by
  induction s with
  | nil => rfl
  | cons c cs ih =>
    have h0 : anchoredAt (c :: cs) = none := by
      have := h 0
      rwa [List.drop_zero] at this
    rw [anchoredSearch, h0]
    dsimp only
    exact ih (fun i => by
      have := h (i + 1)
      rwa [List.drop_succ_cons] at this)

theorem pairSearch_some : ∀ (s : List Char) (p : Nat × Nat),
    pairSearch s = some p → ∃ i r, pairAt (s.drop i) = some (p, r) := by
  intro s
  induction s with
  | nil => intro p h; exact Option.noConfusion h
  | cons c cs ih =>
    intro p h
    rw [pairSearch] at h
    cases h0 : pairAt (c :: cs) with
    | some pr =>
      obtain ⟨q, r⟩ := pr
      rw [h0] at h
      dsimp only at h
      injection h with h
      exact ⟨0, r, by rw [List.drop_zero, h0, h]⟩
    | none =>
      rw [h0] at h
      dsimp only at h
      obtain ⟨i, r, hi⟩ := ih p h
      exact ⟨i + 1, r, by rwa [List.drop_succ_cons]⟩

theorem pairSearch_none (s : List Char) (h : ∀ i, pairAt (s.drop i) = none) :
    pairSearch s = none := by
  induction s with
  | nil => rfl
  | cons c cs ih =>
    have h0 : pairAt (c :: cs) = none := by
      have := h 0
      rwa [List.drop_zero] at this
    rw [pairSearch, h0]
    dsimp only
    exact ih (fun i => by
      have := h (i + 1)
      rwa [List.drop_succ_cons] at this)

theorem findAllAux_nil_noPair : ∀ (f : Nat) (s : List Char), s.length ≤ f →
    findAllAux f s = [] → ∀ j, pairAt (s.drop j) = none := by
  intro f
  induction f with
  | zero =>
    intro s hlen _ j
    have hs : s = [] := List.length_eq_zero.mp (Nat.le_zero.mp hlen)
    subst hs
    rw [List.drop_nil]
    rfl
  | succ f ih =>
    intro s hlen hfa j
    cases s with
    | nil => rw [List.drop_nil]; rfl
    | cons c cs =>
      rw [findAllAux] at hfa
      cases h0 : pairAt (c :: cs) with
      | some pr =>
        obtain ⟨q, rest⟩ := pr
        rw [h0] at hfa
        dsimp only at hfa
        exact List.noConfusion hfa
      | none =>
        rw [h0] at hfa
        dsimp only at hfa
        cases j with
        | zero => rw [List.drop_zero]; exact h0
        | succ j =>
          rw [List.drop_succ_cons]
          exact ih cs (by simp only [List.length_cons] at hlen; omega) hfa j

theorem findAllPairs_nil_noPair (s : List Char) (h : findAllPairs s = []) :
    ∀ j, pairAt (s.drop j) = none :=
  findAllAux_nil_noPair s.length s (le_refl _) h

theorem anchoredAt_some_pair (s : List Char) (v : Nat × Nat)
    (h : anchoredAt s = some v) :
    ∃ j p r, pairAt (s.drop j) = some (p, r) := by
  unfold anchoredAt at h
  cases hm : matchWords anchorWords s with
  | none => rw [hm] at h; exact Option.noConfusion h
  | some s1 =>
    rw [hm] at h
    dsimp only at h
    cases hp : pairAt (skipNonDigits s1) with
    | none => rw [hp] at h; exact Option.noConfusion h
    | some pr =>
      obtain ⟨p, r⟩ := pr
      obtain ⟨u1, hu1⟩ := matchWords_decomp anchorWords s s1 hm
      obtain ⟨u2, hu2, _⟩ := dropWhile_decomp (fun c => !isDigitC c) s1
      refine ⟨u1.length + u2.length, p, r, ?_⟩
      have hs : s = (u1 ++ u2) ++ s1.dropWhile (fun c => !isDigitC c) := by
        rw [hu1]
        conv_lhs => rw [hu2]
        rw [List.append_assoc]
      have hdrop : s.drop (u1.length + u2.length) =
          s1.dropWhile (fun c => !isDigitC c) := by
        conv_lhs => rw [hs, ← List.length_append]
        exact List.drop_left _ _
      rw [hdrop]
      exact hp

theorem anchoredAt_none_of_noPair (s : List Char)
    (h : ∀ j, pairAt (s.drop j) = none) : ∀ i, anchoredAt (s.drop i) = none := by
  intro i
  cases ha : anchoredAt (s.drop i) with
  | none => rfl
  | some v =>
    obtain ⟨j, p, r, hj⟩ := anchoredAt_some_pair _ v ha
    rw [List.drop_drop] at hj
    rw [h (i + j)] at hj
    exact Option.noConfusion hj

theorem stripWs_decomp (s : List Char) : ∃ u v, s = u ++ stripWs s ++ v := by
  obtain ⟨u, hu, _⟩ := dropWhile_decomp isWsC s
  obtain ⟨w, hw, _⟩ := dropWhile_decomp isWsC (s.dropWhile isWsC).reverse
  have h2 : s.dropWhile isWsC =
      ((s.dropWhile isWsC).reverse.dropWhile isWsC).reverse ++ w.reverse := by
    have h3 := congrArg List.reverse hw
    rwa [List.reverse_reverse, List.reverse_append] at h3
  refine ⟨u, w.reverse, ?_⟩
  conv_lhs => rw [hu, h2]
  rw [stripWs, List.append_assoc]

theorem pairAt_transfer (m u v : List Char) (j : Nat) (p : Nat × Nat) (r : List Char)
    (h : pairAt (m.drop j) = some (p, r)) :
    ∃ j2 q r2, pairAt ((u ++ m ++ v).drop j2) = some (q, r2) := by
  have hjm : j ≤ m.length := by
    by_contra hc
    push_neg at hc
    have hnil : m.drop j = [] := List.drop_eq_nil_of_le (le_of_lt hc)
    rw [hnil] at h
    exact Option.noConfusion h
  obtain ⟨q, r2, hq⟩ := pairAt_app_some (m.drop j) v p r h
  refine ⟨u.length + j, q, r2, ?_⟩
  have hdrop : (u ++ m ++ v).drop (u.length + j) = m.drop j ++ v := by
    rw [List.append_assoc, List.drop_append_eq_append_drop,
      List.drop_eq_nil_of_le (Nat.le_add_right u.length j), List.nil_append,
      Nat.add_sub_cancel_left, List.drop_append_eq_append_drop,
      Nat.sub_eq_zero_of_le hjm, List.drop_zero]
  rw [hdrop]
  exact hq

theorem bolds_sub : ∀ (h : Html) (pt t pt2 : List Char),
    (t, pt2) ∈ bolds pt h → ∃ u v, getText h = u ++ t ++ v := by
  intro h
  induction h with
  | txt s => intro pt t pt2 hm; simp [bolds] at hm
  | nil => intro pt t pt2 hm; simp [bolds] at hm
  | seq a b iha ihb =>
    intro pt t pt2 hm
    rw [bolds] at hm
    rcases List.mem_append.mp hm with hma | hmb
    · obtain ⟨u, v, huv⟩ := iha pt t pt2 hma
      exact ⟨u, v ++ getText b, by rw [getText, huv]; simp [List.append_assoc]⟩
    · obtain ⟨u, v, huv⟩ := ihb pt t pt2 hmb
      exact ⟨getText a ++ u, v, by rw [getText, huv]; simp [List.append_assoc]⟩
  | tag tg c ihc =>
    intro pt t pt2 hm
    rw [bolds] at hm
    rcases List.mem_append.mp hm with hml | hmr
    · by_cases htag : tg = "b" ∨ tg = "strong"
      · rw [if_pos htag] at hml
        simp only [List.mem_singleton, Prod.mk.injEq] at hml
        obtain ⟨ht, _⟩ := hml
        exact ⟨[], [], by simp [ht]⟩
      · rw [if_neg htag] at hml
        simp at hml
    · obtain ⟨u, v, huv⟩ := ihc (getText c) t pt2 hmr
      exact ⟨u, v, by rw [getText]; exact huv⟩

theorem scanBold_skip : ∀ (u l : List (List Char × List Char)),
    (∀ b ∈ u, pairSearch (stripWs b.1) = none) →
    scanBold (u ++ l) = scanBold l := by
  intro u
  induction u with
  | nil => intro l _; rfl
  | cons b utl ih =>
    intro l hu
    obtain ⟨t0, pt0⟩ := b
    have h0 : pairSearch (stripWs t0) = none := hu (t0, pt0) (by simp)
    rw [List.cons_append, scanBold, h0]
    dsimp only
    exact ih l (fun x hx => hu x (by simp [hx]))

theorem scanBold_none_of : ∀ (l : List (List Char × List Char)),
    (∀ b ∈ l, pairSearch (stripWs b.1) = none ∨ containsKeyword b.2 = false) →
    scanBold l = none := by
  intro l
  induction l with
  | nil => intro _; rfl
  | cons b ltl ih =>
    intro hl
    obtain ⟨t0, pt0⟩ := b
    rw [scanBold]
    cases hps : pairSearch (stripWs t0) with
    | none =>
      dsimp only
      exact ih (fun x hx => hl x (by simp [hx]))
    | some p =>
      dsimp only
      rcases hl (t0, pt0) (by simp) with hn | hkf
      · have hn2 : pairSearch (stripWs t0) = none := hn
        rw [hn2] at hps
        exact Option.noConfusion hps
      · have hk : containsKeyword pt0 = false := hkf
        simp only [hk, Bool.false_eq_true, if_false]
        exact ih (fun x hx => hl x (by simp [hx]))

/-! ### Claims about the extractor -/

/-- Claim C3: a page whose tag-stripped text contains the anchor phrase
(case-insensitively), then only non-digit characters, then a digit run, a
slash with optional whitespace around it, and a second digit run, is
extracted by strategy 1 into the two digit groups. -/
theorem c3_anchored (page : Html)
    (p a1 a2 a3 a4 a5 g d1 w1 w2 d2 t : List Char)
    (htext : getText page =
      p ++ (a1 ++ ' ' :: (a2 ++ ' ' :: (a3 ++ ' ' :: (a4 ++ ' ' :: (a5 ++
        (g ++ (d1 ++ (w1 ++ '/' :: (w2 ++ (d2 ++ t)))))))))))
    (hci1 : List.map lowChar a1 = List.map lowChar ("AKTUALNA".data))
    (hci2 : List.map lowChar a2 = List.map lowChar ("LICZBA".data))
    (hci3 : List.map lowChar a3 = List.map lowChar ("OSÓB".data))
    (hci4 : List.map lowChar a4 = List.map lowChar ("NA".data))
    (hci5 : List.map lowChar a5 = List.map lowChar ("BASENIE".data))
    (hg : ∀ ch ∈ g, isDigitC ch = false)
    (hd1ne : d1 ≠ []) (hd1 : ∀ ch ∈ d1, isDigitC ch = true)
    (hw1 : ∀ ch ∈ w1, isWsC ch = true) (hw2 : ∀ ch ∈ w2, isWsC ch = true)
    (hd2ne : d2 ≠ []) (hd2 : ∀ ch ∈ d2, isDigitC ch = true)
    (ht : headSat isDigitC t = false)
    (hleft : ∀ i, i < p.length → anchoredAt ((getText page).drop i) = none) :
    fetch_pool_occupancy page = some (natOfDigits d1, natOfDigits d2) := by
  have hat : anchoredAt ((getText page).drop p.length) =
      some (natOfDigits d1, natOfDigits d2) := by
    rw [htext, List.drop_left]
    unfold anchoredAt
    rw [matchWords_anchor a1 a2 a3 a4 a5 _ hci1 hci2 hci3 hci4 hci5]
    dsimp only
    have hskip : skipNonDigits (g ++ (d1 ++ (w1 ++ '/' :: (w2 ++ (d2 ++ t))))) =
        d1 ++ (w1 ++ '/' :: (w2 ++ (d2 ++ t))) := by
      unfold skipNonDigits
      apply dropWhile_all_app
      · intro ch hch
        simp [hg ch hch]
      · cases d1 with
        | nil => exact absurd rfl hd1ne
        | cons d dtl =>
          show (!isDigitC d) = false
          simp [hd1 d (by simp)]
    rw [hskip]
    have e1 : takeDigits (d1 ++ (w1 ++ '/' :: (w2 ++ (d2 ++ t)))) =
        some (natOfDigits d1, w1 ++ '/' :: (w2 ++ (d2 ++ t))) :=
      takeDigits_app d1 _ hd1ne hd1 (headSat_digit_false_of_ws w1 _ hw1)
    have e2 : skipWs (w1 ++ '/' :: (w2 ++ (d2 ++ t))) = '/' :: (w2 ++ (d2 ++ t)) := by
      unfold skipWs
      exact dropWhile_all_app isWsC w1 _ hw1 (show isWsC '/' = false by decide)
    have e3 : skipWs (w2 ++ (d2 ++ t)) = d2 ++ t := by
      unfold skipWs
      exact dropWhile_all_app isWsC w2 _ hw2 (headSat_ws_false_of_digit d2 t hd2ne hd2)
    have e4 : takeDigits (d2 ++ t) = some (natOfDigits d2, t) :=
      takeDigits_app d2 t hd2ne hd2 ht
    have e5 : pairAt (d1 ++ (w1 ++ '/' :: (w2 ++ (d2 ++ t)))) =
        some ((natOfDigits d1, natOfDigits d2), t) := by
      unfold pairAt
      rw [e1]
      dsimp only
      rw [e2]
      dsimp only
      rw [if_pos rfl, e3, e4]
    rw [e5]
  have hsearch : anchoredSearch (getText page) =
      some (natOfDigits d1, natOfDigits d2) :=
    anchoredSearch_pos p.length (getText page) _ hleft hat
  unfold fetch_pool_occupancy
  rw [hsearch]

/-- Claim C3 witness: the anchor page with gap text containing a newline
yields `Found(17, 80)`. -/
theorem c3_witness : fetch_pool_occupancy c3Page = some (17, 80) :=
  (c3_anchored c3Page [] ("AKTUALNA".data) ("LICZBA".data) ("OSÓB".data) ("NA".data)
    ("BASENIE".data) ("\nw dniu: ".data) ("17".data) (" ".data) (" ".data) ("80".data) []
    (by decide) rfl rfl rfl rfl rfl
    (by decide) (by decide) (by decide) (by decide) (by decide) (by decide) (by decide)
    (by decide)
    (fun i hi => absurd hi (by simp))).trans (by decide)

/-- Claim C5: when strategies 1 and 2 fail, the heuristic fallback
returns the first digit pair in document order whose second component
lies in the inclusive range 50..200, skipping every earlier pair whose
capacity is out of range. -/
theorem c5_fallback (page : Html) (u rest : List (Nat × Nat)) (pr : Nat × Nat)
    (h1 : anchoredSearch (getText page) = none)
    (h2 : scanBold (collectBolds page) = none)
    (hsplit : findAllPairs (getText page) = u ++ pr :: rest)
    (hu : ∀ q ∈ u, ¬(50 ≤ q.2 ∧ q.2 ≤ 200))
    (hpr : 50 ≤ pr.2 ∧ pr.2 ≤ 200) :
    fetch_pool_occupancy page = some pr := by
  unfold fetch_pool_occupancy
  rw [h1]
  dsimp only
  rw [h2]
  dsimp only
  unfold findPlausible
  rw [hsplit]
  refine find?_first _ u pr rest (fun q hq => ?_) (by simp [hpr.1, hpr.2])
  have hnq := hu q hq
  by_cases h50 : 50 ≤ q.2
  · have h200 : ¬ q.2 ≤ 200 := fun hh => hnq ⟨h50, hh⟩
    simp [h50, h200]
  · simp [h50]

/-- Claim C5 witness: a page with only `4/7` and `12/100` yields
`Found(12, 100)`, skipping the implausible `4/7`. -/
theorem c5_witness :
    findAllPairs (getText c5Page) = [(4, 7), (12, 100)] ∧
      fetch_pool_occupancy c5Page = some (12, 100) :=
  ⟨by decide,
   c5_fallback c5Page [(4, 7)] [] (12, 100) (by decide) (by decide) (by decide)
     (by decide) (by decide)⟩

/-- Claim C6: on a page whose text contains no digit-pair pattern at all,
extraction returns `none` (the NotFound outcome) — all three strategies
fail and no exception path exists in the model. -/
theorem c6_notfound (page : Html)
    (hnp : findAllPairs (getText page) = []) :
    fetch_pool_occupancy page = none := by
  have noPair : ∀ j, pairAt ((getText page).drop j) = none :=
    findAllPairs_nil_noPair _ hnp
  have hanch : anchoredSearch (getText page) = none :=
    anchoredSearch_none _ (anchoredAt_none_of_noPair _ noPair)
  have hbold : scanBold (collectBolds page) = none := by
    apply scanBold_none_of
    intro b hb
    left
    cases hps : pairSearch (stripWs b.1) with
    | none => rfl
    | some p =>
      exfalso
      obtain ⟨i, r, hi⟩ := pairSearch_some _ p hps
      obtain ⟨u1, v1, hsv⟩ := stripWs_decomp b.1
      obtain ⟨u2, v2, hgt⟩ := bolds_sub page (getText page) b.1 b.2 hb
      have hgt2 : getText page = (u2 ++ u1) ++ stripWs b.1 ++ (v1 ++ v2) := by
        rw [hgt]
        conv_lhs => rw [hsv]
        simp [List.append_assoc]
      obtain ⟨j2, q, r2, hj2⟩ :=
        pairAt_transfer (stripWs b.1) (u2 ++ u1) (v1 ++ v2) i p r hi
      rw [← hgt2] at hj2
      rw [noPair j2] at hj2
      exact Option.noConfusion hj2
  unfold fetch_pool_occupancy
  rw [hanch]
  dsimp only
  rw [hbold]
  dsimp only
  unfold findPlausible
  rw [hnp]
  rfl

/-- Claim C6 witness: a page with no digit pair yields `none`. -/
theorem c6_witness :
    findAllPairs (getText c6Page) = [] ∧ fetch_pool_occupancy c6Page = none :=
  ⟨by decide, c6_notfound c6Page (by decide)⟩

/-- Claim C7: when strategy 1 fails and exactly one bold element embeds a
digit pair, strategy 2 returns that pair precisely when the text of the
element's immediate parent contains the keyword AKTUALNA or BASENIE
(case-insensitively). -/
theorem c7_emphasized (page : Html) (u rest : List (List Char × List Char))
    (t pt : List Char) (c m : Nat)
    (h1 : anchoredSearch (getText page) = none)
    (hsplit : collectBolds page = u ++ (t, pt) :: rest)
    (hu : ∀ b ∈ u, pairSearch (stripWs b.1) = none)
    (ht : pairSearch (stripWs t) = some (c, m))
    (hrest : ∀ b ∈ rest, pairSearch (stripWs b.1) = none) :
    (scanBold (collectBolds page) = some (c, m) ↔ containsKeyword pt = true) := by
  rw [hsplit]
  constructor
  · intro hs
    by_contra hk
    have hkf : containsKeyword pt = false := by
      cases hck : containsKeyword pt with
      | false => rfl
      | true => exact absurd hck hk
    have hnone : scanBold (u ++ (t, pt) :: rest) = none := by
      apply scanBold_none_of
      intro b hb
      rcases List.mem_append.mp hb with hbu | hbc
      · exact Or.inl (hu b hbu)
      · rcases List.mem_cons.mp hbc with hbe | hbr
        · exact Or.inr (by rw [hbe]; exact hkf)
        · exact Or.inl (hrest b hbr)
    rw [hnone] at hs
    exact Option.noConfusion hs
  · intro hk
    rw [scanBold_skip u _ hu, scanBold, ht]
    dsimp only
    simp [hk]

/-- Claim C7 witness: the bold `3/80` under a container mentioning
BASENIE yields `Found(3, 80)` from strategy 2. -/
theorem c7_witness :
    scanBold (collectBolds c7Page) = some (3, 80) :=
  (c7_emphasized c7Page [] [] ("3/80".data) ("BASENIE dzisiaj: 3/80".data) 3 80
    (by decide) (by decide) (by simp) (by decide) (by simp)).mpr (by decide)
